import Mathlib

/-!
Verification of the `PluginLoader` orchestration core.

Shallow embedding of `src/server/managers/PluginLoader.ts` from the
`sunbird-ext-framework` repository.  The loader is an async, stateful TypeScript
class; we model it as a state-passing interpreter.

Modelling choices (each traceable to the source):

* `this._pluginsLoaded : Array<string>` becomes `LoaderState.pluginsLoaded :
  List String`; `push` appends, `indexOf(x) == -1` becomes `¬ contains`.
* `PluginManager.instances[manifest.id] = pluginInstance` becomes insertion of
  the key into `LoaderState.instances` (JavaScript object key-assignment keeps
  insertion order; re-assignment keeps the original position).
* Dynamic `import(config.pluginBasePath + id + '/...')` resolution is modelled
  by an environment `Env` keyed by plugin id (the module universe relative to
  the configured base path); the full path string is recorded in the error
  that a failed import produces, so error attribution stays faithful.
* Thrown errors become an `Option JsError` result component; the mutated state
  at the moment of the throw is kept (JavaScript exceptions do not roll back
  field mutations).
* `loadDBSchema` invokes `glob` with a callback and never awaits the per-file
  work; exceptions thrown inside the callback's `forEach(async ...)` become
  unhandled promise rejections.  We model this faithfully: schema failures are
  appended to `LoaderState.unhandled` and never propagate to the caller.
* The recursion `loadPlugin ↔ loadDependencies` is modelled with explicit fuel
  (`loadPluginF`); a totality theorem shows a concrete fuel bound always
  suffices, which is the termination statement for the original recursion.
* An event trace (`LoaderState.events`) records, in execution order, the
  observable pipeline stages: claim (step 1), manifest resolution (step 2),
  schema-stage entry (step 5), instantiation (step 6), route registration
  (step 7).  Ordering claims are stated over this trace.
-/

/-- `interfaces.IPlugin`: the minimal plugin reference `{ id }`. -/
structure IPlugin where
  id : String
deriving DecidableEq, Repr

/-- The `server` section of a manifest as used by `PluginLoader`:
`manifest.server.dependencies` may be absent (`undefined`), which we model
with `Option`. -/
structure ServerSection where
  dependencies : Option (List IPlugin)
deriving DecidableEq, Repr

/-- Modelled from the spec: the `Manifest` model (`src/server/models/Manifest`)
is not part of the provided source; per the spec (§3) it carries the plugin id
and the ordered dependency list, which is exactly how `PluginLoader` uses it
(`manifest.id`, `manifest.server.dependencies`). -/
structure Manifest where
  id : String
  server : ServerSection
deriving DecidableEq, Repr

/-- `FrameworkErrors` codes used by `PluginLoader`. -/
inductive FrameworkErrorCode where
  | manifestNotFound
  | pluginLoadFailed
  | routeRegistryFailed
  | schemaLoaderFailed
deriving DecidableEq, Repr

/-- `FrameworkError`: a code plus the root error, which we represent by the
message/path of the underlying failure (for failed imports this is the module
path, which contains the plugin id). -/
structure FrameworkError where
  code : FrameworkErrorCode
  rootError : String
deriving DecidableEq, Repr

/-- A raised JavaScript error: either a wrapped `FrameworkError` or a raw
`TypeError` (e.g. iterating `undefined`). -/
inductive JsError where
  | framework (e : FrameworkError)
  | typeError (msg : String)
deriving DecidableEq, Repr

/-- `FrameworkConfig` as used by the loader: only `pluginBasePath` is read. -/
structure FrameworkConfig where
  pluginBasePath : String
deriving DecidableEq, Repr

/-- Observable pipeline-stage events, in execution order. -/
inductive Event where
  | claim (id : String)
  | manifestResolved (id : String)
  | schemaStage (id : String)
  | instantiated (id : String)
  | routesRegistered (id : String)
deriving DecidableEq, Repr

/-- The plugin id an event is about. -/
def Event.eventId : Event → String
  | Event.claim i => i
  | Event.manifestResolved i => i
  | Event.schemaStage i => i
  | Event.instantiated i => i
  | Event.routesRegistered i => i

/-- The mutable state touched by the loader: its own `_pluginsLoaded` array,
the process-wide `PluginManager.instances` and router registrations, the
schema activations performed, detached (unhandled) schema rejections, and the
event trace. -/
structure LoaderState where
  pluginsLoaded : List String
  instances : List String
  routes : List String
  schemasCreated : List String
  unhandled : List FrameworkError
  events : List Event
deriving DecidableEq, Repr

/-- The state at process start: nothing loaded. -/
def initState : LoaderState := ⟨[], [], [], [], [], []⟩

/-- Result of a loader call: `error = none` is a resolved promise, `some e` a
rejection; either way the mutations performed so far are kept in `state`. -/
structure LoadResult where
  error : Option JsError
  state : LoaderState
deriving DecidableEq, Repr

/-- The collaborator environment: the module universe relative to
`config.pluginBasePath`.  `manifests` resolves `import(base + id + '/manifest')`;
`serverModuleOk` says whether `import(base + id + '/server')` plus
`new Server(config, manifest)` succeeds; `routerModuleOk` likewise for
`/routes` plus `Router.init`; `schemaFiles` is the `glob` result for
`base + id + '/db/**/schema*.json'`; `schemaCreateOk` says whether the
import-plus-`SchemaLoader.create` for a discovered schema file succeeds. -/
structure Env where
  manifests : List (String × Manifest)
  serverModuleOk : String → Bool
  routerModuleOk : String → Bool
  schemaFiles : String → List String
  schemaCreateOk : String → Bool

/-- Look up the manifest module for a plugin id. -/
def lookupManifest (env : Env) (pluginId : String) : Option Manifest :=
  (env.manifests.find? (fun p => p.fst == pluginId)).map Prod.snd

/-- The root-error message of a failed manifest import. -/
def manifestErrMsg (cfg : FrameworkConfig) (pluginId : String) : String :=
  "Cannot find module " ++ cfg.pluginBasePath ++ pluginId ++ "/manifest"

/-- `getManifest` (PluginLoader.ts lines 62-71): import the manifest module and
wrap any failure as `MANIFEST_NOT_FOUND`. -/
def getManifest (env : Env) (cfg : FrameworkConfig) (pluginId : String) :
    Except JsError Manifest :=
  match lookupManifest env pluginId with
  | some m => Except.ok m
  | none =>
      Except.error (JsError.framework
        ⟨FrameworkErrorCode.manifestNotFound, manifestErrMsg cfg pluginId⟩)

/-- A JavaScript value as needed to model the step-3 guard: `typeof` returns a
string, and the guard compares that string against the (non-string) value
`undefined`. -/
inductive JsVal where
  | undef
  | jsStr (s : String)
deriving DecidableEq, Repr

/-- JavaScript `typeof` applied to `manifest.server.dependencies`. -/
def jsTypeof (deps : Option (List IPlugin)) : JsVal :=
  match deps with
  | none => JsVal.jsStr "undefined"
  | some _ => JsVal.jsStr "object"

/-- JavaScript strict inequality `!==` restricted to the values involved:
values of different types are always `!==`. -/
def jsStrictNeq : JsVal → JsVal → Bool
  | JsVal.undef, JsVal.undef => false
  | JsVal.jsStr a, JsVal.jsStr b => decide (a ≠ b)
  | JsVal.undef, JsVal.jsStr _ => true
  | JsVal.jsStr _, JsVal.undef => true

/-- The step-3 guard as written in the source:
`typeof(manifest.server.dependencies) !== undefined`. -/
def dependenciesGuard (deps : Option (List IPlugin)) : Bool :=
  jsStrictNeq (jsTypeof deps) JsVal.undef

/-- `_.cloneDeep` on a manifest: a structural deep copy. -/
def cloneDeepManifest (m : Manifest) : Manifest :=
  ⟨m.id, ⟨(m.server.dependencies).map (fun l => l.map (fun p => ⟨p.id⟩))⟩⟩

/-- Step 1: `this._pluginsLoaded.push(plugin.id)`. -/
def claimState (pluginId : String) (s : LoaderState) : LoaderState :=
  { s with pluginsLoaded := s.pluginsLoaded ++ [pluginId],
           events := s.events ++ [Event.claim pluginId] }

/-- Trace point after step 2 resolved the manifest. -/
def manifestState (pluginId : String) (s : LoaderState) : LoaderState :=
  { s with events := s.events ++ [Event.manifestResolved pluginId] }

/-- Message of the `TypeError` raised by `for...of undefined`. -/
def iterErrMsg : String := "manifest.server.dependencies is not iterable"

/-- JavaScript object key assignment `instances[id] = v`: a new key is
appended, an existing key keeps its position. -/
def insertInstanceKey (id : String) (l : List String) : List String :=
  if l.contains id then l else l ++ [id]

/-- One schema file processed by the detached `glob` callback: on failure the
wrapped `SCHEMA_LOADER_FAILED` error becomes an unhandled rejection. -/
def schemaFileStep (env : Env) (st : LoaderState) (file : String) : LoaderState :=
  if env.schemaCreateOk file then
    { st with schemasCreated := st.schemasCreated ++ [file] }
  else
    { st with unhandled :=
        st.unhandled ++ [⟨FrameworkErrorCode.schemaLoaderFailed, file⟩] }

/-- `loadDBSchema` (lines 103-115): discover schema files and process each one
in a detached callback; failures never reach the caller's error channel. -/
def loadDBSchema (env : Env) (m : Manifest) (s : LoaderState) : LoaderState :=
  (env.schemaFiles m.id).foldl (schemaFileStep env)
    { s with events := s.events ++ [Event.schemaStage m.id] }

/-- `instantiatePlugin` (lines 80-89): import `/server`, construct the plugin,
store it in `PluginManager.instances`; wrap failure as `PLUGIN_LOAD_FAILED`. -/
def instantiatePlugin (env : Env) (cfg : FrameworkConfig) (m : Manifest)
    (s : LoaderState) : LoadResult :=
  if env.serverModuleOk m.id then
    ⟨none, { s with instances := insertInstanceKey m.id s.instances,
                    events := s.events ++ [Event.instantiated m.id] }⟩
  else
    ⟨some (JsError.framework ⟨FrameworkErrorCode.pluginLoadFailed,
        cfg.pluginBasePath ++ m.id ++ "/server"⟩), s⟩

/-- `registerRoutes` (lines 91-101): obtain the router, import `/routes`,
`Router.init`; wrap failure as `ROUTE_REGISTRY_FAILED`. -/
def registerRoutes (env : Env) (cfg : FrameworkConfig) (m : Manifest)
    (s : LoaderState) : LoadResult :=
  if env.routerModuleOk m.id then
    ⟨none, { s with routes := s.routes ++ [m.id],
                    events := s.events ++ [Event.routesRegistered m.id] }⟩
  else
    ⟨some (JsError.framework ⟨FrameworkErrorCode.routeRegistryFailed,
        cfg.pluginBasePath ++ m.id ++ "/routes"⟩), s⟩

/-- Steps 5-7 of `loadPlugin`, run after the dependency stage succeeded. -/
def finishStages (env : Env) (cfg : FrameworkConfig) (m : Manifest)
    (s : LoaderState) : LoadResult :=
  let s4 := loadDBSchema env m s
  match instantiatePlugin env cfg m s4 with
  | ⟨some e, s5⟩ => ⟨some e, s5⟩
  | ⟨none, s5⟩ => registerRoutes env cfg m s5

/-- `loadDependencies` (lines 28-34) as a loop body parametrised by the
recursive `loadPlugin` entry `lp`: iterate the declared dependency ids in
order, skipping ids already present in `_pluginsLoaded`. -/
def loadDepsRun (lp : String → LoaderState → Option LoadResult) :
    List String → LoaderState → Option LoadResult
  | [], s => some ⟨none, s⟩
  | d :: rest, s =>
    if s.pluginsLoaded.contains d then
      loadDepsRun lp rest s
    else
      match lp d s with
      | none => none
      | some ⟨some e, s'⟩ => some ⟨some e, s'⟩
      | some ⟨none, s'⟩ => loadDepsRun lp rest s'

/-- One unrolling of `loadPlugin` (lines 48-60), parametrised by the recursive
entry used for dependencies. -/
def loadStep (env : Env) (cfg : FrameworkConfig)
    (lp : String → LoaderState → Option LoadResult) (pluginId : String)
    (s : LoaderState) : Option LoadResult :=
  let s1 := claimState pluginId s
  match getManifest env cfg pluginId with
  | Except.error e => some ⟨some e, s1⟩
  | Except.ok manifest =>
    let s2 := manifestState pluginId s1
    let pluginManifest := cloneDeepManifest manifest
    if dependenciesGuard pluginManifest.server.dependencies then
      match pluginManifest.server.dependencies with
      | none => some ⟨some (JsError.typeError iterErrMsg), s2⟩
      | some deps =>
        match loadDepsRun lp (deps.map IPlugin.id) s2 with
        | none => none
        | some ⟨some e, s3⟩ => some ⟨some e, s3⟩
        | some ⟨none, s3⟩ => some (finishStages env cfg pluginManifest s3)
    else
      some (finishStages env cfg pluginManifest s2)

/-- `loadPlugin` (lines 48-60), fueled: `none` means the fuel ran out before
the call completed; `some r` is the faithful outcome.  The fuel is an artefact
of the embedding; `loadPlugin_isSome` shows a concrete bound always
suffices. -/
def loadPluginF (env : Env) (cfg : FrameworkConfig) :
    Nat → String → LoaderState → Option LoadResult
  | 0 => fun _ _ => none
  | fuel + 1 => loadStep env cfg (loadPluginF env cfg fuel)

/-- `loadDependencies` (lines 28-34), fueled. -/
def loadDependenciesF (env : Env) (cfg : FrameworkConfig) (fuel : Nat) :
    List String → LoaderState → Option LoadResult :=
  loadDepsRun (loadPluginF env cfg fuel)

/-- Number of manifest keys not yet claimed: the fuel measure. -/
def unseen (env : Env) (loaded : List String) : Nat :=
  ((env.manifests.map Prod.fst).filter (fun k => !(loaded.contains k))).length

/-- The canonical fuel: always enough (`loadPluginF_isSome`). -/
def defaultFuel (env : Env) (s : LoaderState) : Nat :=
  unseen env s.pluginsLoaded + 2

/-- The loader's `loadPlugin` entry point, with the canonical fuel. -/
def loadPlugin (env : Env) (cfg : FrameworkConfig) (pluginId : String)
    (s : LoaderState) : LoadResult :=
  (loadPluginF env cfg (defaultFuel env s) pluginId s).getD
    ⟨some (JsError.typeError "fuel exhausted"), s⟩

/-! ## Dependency-graph reachability and invariant predicates -/

/-- Well-formed module universe: a manifest's declared id matches the id it is
resolved under. -/
def WFEnv (env : Env) : Prop :=
  ∀ k m, lookupManifest env k = some m → m.id = k

/-- The dependency ids a manifest declares (empty when absent). -/
def depIdsOf (m : Manifest) : List String :=
  ((m.server.dependencies).getD []).map IPlugin.id

/-- One edge of the dependency graph induced by the module universe. -/
def DepRel (env : Env) (a b : String) : Prop :=
  ∃ m, lookupManifest env a = some m ∧ b ∈ depIdsOf m

/-- Reachability (reflexive-transitive) in the dependency graph. -/
def Reaches (env : Env) : String → String → Prop :=
  Relation.ReflTransGen (DepRel env)

/-- Everything `loadPlugin`'s invariant guarantees about one call: the claimed
set and the trace only grow by appending; the requested id ends up claimed;
every newly claimed id is reachable from the request; no duplicate claims are
introduced for a fresh request; and (in a well-formed universe) every appended
event concerns a previously unclaimed id reachable from the request. -/
def LPConcl (env : Env) (pluginId : String) (s : LoaderState) (r : LoadResult) :
    Prop :=
  (∃ t, r.state.pluginsLoaded = s.pluginsLoaded ++ t) ∧
  (∃ t, r.state.events = s.events ++ t) ∧
  pluginId ∈ r.state.pluginsLoaded ∧
  (∀ x, x ∈ r.state.pluginsLoaded →
      x ∈ s.pluginsLoaded ∨ Reaches env pluginId x) ∧
  (pluginId ∉ s.pluginsLoaded → s.pluginsLoaded.Nodup →
      r.state.pluginsLoaded.Nodup) ∧
  (WFEnv env → pluginId ∉ s.pluginsLoaded →
      ∀ e ∈ r.state.events, e ∈ s.events ∨
        (e.eventId ∉ s.pluginsLoaded ∧ Reaches env pluginId e.eventId))

/-- The corresponding invariant for one `loadDependencies` call over the
remaining dependency list `ds`; on success every listed dependency has been
claimed. -/
def LDConcl (env : Env) (ds : List String) (s : LoaderState) (r : LoadResult) :
    Prop :=
  (∃ t, r.state.pluginsLoaded = s.pluginsLoaded ++ t) ∧
  (∃ t, r.state.events = s.events ++ t) ∧
  (∀ x, x ∈ r.state.pluginsLoaded →
      x ∈ s.pluginsLoaded ∨ ∃ d ∈ ds, Reaches env d x) ∧
  (s.pluginsLoaded.Nodup → r.state.pluginsLoaded.Nodup) ∧
  (WFEnv env → ∀ e ∈ r.state.events, e ∈ s.events ∨
      (e.eventId ∉ s.pluginsLoaded ∧ ∃ d ∈ ds, Reaches env d e.eventId)) ∧
  (r.error = none → ∀ d ∈ ds, d ∈ r.state.pluginsLoaded)

/-! ## Trace-order helper -/

/-- `occursBeforeB tr a b`: at the first occurrence of `a` in `tr`, `b` still
occurs strictly later. -/
def occursBeforeB : List Event → Event → Event → Bool
  | [], _, _ => false
  | e :: tr, a, b => if e = a then tr.contains b else occursBeforeB tr a b

/-- The trace events of the pipeline stages of plugin `i`, in stage order. -/
def stageEventsOf (i : String) : List Event :=
  [Event.claim i, Event.manifestResolved i, Event.schemaStage i,
   Event.instantiated i, Event.routesRegistered i]

/-! ## A reference heap, for the configuration-capture contract

The constructor stores `_.cloneDeep(config)`, not the caller's reference.  To
state that, we model object references explicitly: a `World` is a heap of
configuration objects; the caller owns one cell, construction allocates a
fresh cell holding a structural copy, and mutation writes through a cell. -/

/-- `_.cloneDeep` of a configuration: a structural deep copy. -/
def cloneDeepConfig (c : FrameworkConfig) : FrameworkConfig :=
  ⟨c.pluginBasePath⟩

/-- A heap of configuration objects. -/
structure World where
  heap : Nat → FrameworkConfig
  next : Nat

/-- The loader object holds a reference to its `_config` cell. -/
structure PluginLoaderObj where
  configRef : Nat

/-- `new PluginLoader(config)`: allocate a fresh cell holding
`_.cloneDeep` of the caller's configuration object. -/
def constructLoader (w : World) (callerRef : Nat) : World × PluginLoaderObj :=
  (⟨fun n => if n = w.next then cloneDeepConfig (w.heap callerRef) else w.heap n,
    w.next + 1⟩,
   ⟨w.next⟩)

/-- The caller mutates its own configuration object in place. -/
def mutateConfig (w : World) (ref : Nat) (f : FrameworkConfig → FrameworkConfig) :
    World :=
  ⟨fun n => if n = ref then f (w.heap n) else w.heap n, w.next⟩

/-- The `config` getter: read the loader's `_config` cell. -/
def configGetter (w : World) (ld : PluginLoaderObj) : FrameworkConfig :=
  w.heap ld.configRef

/-- A `loadPlugin` call made on a constructed loader object: it reads the
configuration through the loader's own reference. -/
def loadPluginVia (w : World) (ld : PluginLoaderObj) (env : Env)
    (pluginId : String) (s : LoaderState) : LoadResult :=
  loadPlugin env (configGetter w ld) pluginId s

/-! ## Concrete scenario environments -/

/-- A manifest with the given id and dependency ids. -/
def mkManifest (i : String) (ds : List String) : Manifest :=
  ⟨i, ⟨some (ds.map IPlugin.mk)⟩⟩

/-- An environment in which every collaborator succeeds and no plugin has
schema files. -/
def okEnv (ms : List (String × Manifest)) : Env :=
  ⟨ms, fun _ => true, fun _ => true, fun _ => [], fun _ => true⟩

/-- A sample configuration. -/
def cfg0 : FrameworkConfig := ⟨"/plugins/"⟩

/-- Linear chain: `{A: deps [], B: deps [A], C: deps [B]}`. -/
def envChain : Env :=
  okEnv [("A", mkManifest "A" []), ("B", mkManifest "B" ["A"]),
         ("C", mkManifest "C" ["B"])]

/-- Diamond: `{A: deps [], B: deps [A], C: deps [A], D: deps [B, C]}`. -/
def envDiamond : Env :=
  okEnv [("A", mkManifest "A" []), ("B", mkManifest "B" ["A"]),
         ("C", mkManifest "C" ["A"]), ("D", mkManifest "D" ["B", "C"])]

/-- Two-plugin cycle `A→B→A`. -/
def envCycle : Env :=
  okEnv [("A", mkManifest "A" ["B"]), ("B", mkManifest "B" ["A"])]

/-- A graph containing the cycle `A→B→A` in which `A`'s first dependency `Cm`
has no manifest module. -/
def envCycleBad : Env :=
  okEnv [("A", mkManifest "A" ["Cm", "B"]), ("B", mkManifest "B" ["A"])]

/-- `{P: deps [D1, D2], D1: deps [D2], D2: deps []}`: the second declared
dependency is also a transitive dependency of the first. -/
def envOverlap : Env :=
  okEnv [("P", mkManifest "P" ["D1", "D2"]), ("D1", mkManifest "D1" ["D2"]),
         ("D2", mkManifest "D2" [])]

/-- `{P: deps [D1, D2]}` with independent dependencies. -/
def envTwoDeps : Env :=
  okEnv [("P", mkManifest "P" ["D1", "D2"]), ("D1", mkManifest "D1" []),
         ("D2", mkManifest "D2" [])]

/-- Plugin `X` with one schema descriptor whose activation fails. -/
def envSchemaFail : Env :=
  ⟨[("X", mkManifest "X" [])], fun _ => true, fun _ => true,
   fun i => if i == "X" then ["/plugins/X/db/schema_1.json"] else [],
   fun _ => false⟩

/-- A single dependency-free plugin `A`. -/
def envSingleA : Env := okEnv [("A", mkManifest "A" [])]

/-- Plugin `A` whose instantiation (`/server` import) fails. -/
def envInstFail : Env :=
  ⟨[("A", mkManifest "A" [])], fun _ => false, fun _ => true,
   fun _ => [], fun _ => true⟩

/-- Plugin `P` depending on `Dm`, which has no manifest module. -/
def envDepMissing : Env :=
  okEnv [("P", mkManifest "P" ["Dm"])]

/-- Plugin `U` whose manifest has no `dependencies` field (`undefined`). -/
def envUndefDeps : Env := okEnv [("U", ⟨"U", ⟨none⟩⟩)]

/-- The concrete outcome of `loadPlugin "A"` in `envInstFail`: claimed, schema
stage entered, then rejected at instantiation with the claim kept. -/
def failResultA : LoadResult :=
  ⟨some (JsError.framework
      ⟨FrameworkErrorCode.pluginLoadFailed, "/plugins/A/server"⟩),
   ⟨["A"], [], [], [], [],
    [Event.claim "A", Event.manifestResolved "A", Event.schemaStage "A"]⟩⟩

/-! ## Basic facts about the embedded JavaScript semantics -/

/-- The step-3 guard compares the string returned by `typeof` against the
value `undefined`, so it is `true` for every manifest. -/
theorem dependenciesGuard_eq_true (deps : Option (List IPlugin)) :
    dependenciesGuard deps = true := by
  cases deps <;> rfl

/-- Deep-copying a manifest yields an equal value. -/
theorem cloneDeepManifest_eq (m : Manifest) : cloneDeepManifest m = m := by
  obtain ⟨i, ⟨deps⟩⟩ := m
  unfold cloneDeepManifest
  cases deps with
  | none => rfl
  | some l =>
      simp only [Option.map_some, Manifest.mk.injEq, ServerSection.mk.injEq,
        Option.some.injEq, true_and]
      have hfun : (fun p : IPlugin => (⟨p.id⟩ : IPlugin)) = id := by
        funext p; cases p; rfl
      rw [hfun]; simp

/-- `contains` agrees with membership for strings. -/
theorem contains_true_iff (l : List String) (a : String) :
    l.contains a = true ↔ a ∈ l := List.elem_iff

/-! ## Unfolding lemmas for the fueled interpreter -/

theorem loadPluginF_zero (env : Env) (cfg : FrameworkConfig) (pluginId : String)
    (s : LoaderState) : loadPluginF env cfg 0 pluginId s = none := by
  simp [loadPluginF]

/-- One step of `loadPlugin`, with the always-true step-3 guard and the
identity deep copy already resolved. -/
theorem loadPluginF_succ (env : Env) (cfg : FrameworkConfig) (fuel : Nat)
    (pluginId : String) (s : LoaderState) :
    loadPluginF env cfg (fuel + 1) pluginId s =
      match lookupManifest env pluginId with
      | none => some ⟨some (JsError.framework
          ⟨FrameworkErrorCode.manifestNotFound, manifestErrMsg cfg pluginId⟩),
          claimState pluginId s⟩
      | some m =>
        match m.server.dependencies with
        | none => some ⟨some (JsError.typeError iterErrMsg),
            manifestState pluginId (claimState pluginId s)⟩
        | some deps =>
          match loadDependenciesF env cfg fuel (deps.map IPlugin.id)
              (manifestState pluginId (claimState pluginId s)) with
          | none => none
          | some ⟨some e, s3⟩ => some ⟨some e, s3⟩
          | some ⟨none, s3⟩ => some (finishStages env cfg m s3) := by
  cases h : lookupManifest env pluginId with
  | none => simp [loadPluginF, loadStep, getManifest, h]
  | some m =>
      simp only [loadPluginF, loadStep, loadDependenciesF, getManifest, h,
        cloneDeepManifest_eq, dependenciesGuard_eq_true, if_true]

theorem loadDependenciesF_nil (env : Env) (cfg : FrameworkConfig) (fuel : Nat)
    (s : LoaderState) : loadDependenciesF env cfg fuel [] s = some ⟨none, s⟩ := by
  simp only [loadDependenciesF, loadDepsRun]

theorem loadDependenciesF_cons (env : Env) (cfg : FrameworkConfig) (fuel : Nat)
    (d : String) (rest : List String) (s : LoaderState) :
    loadDependenciesF env cfg fuel (d :: rest) s =
      if s.pluginsLoaded.contains d then
        loadDependenciesF env cfg fuel rest s
      else
        match loadPluginF env cfg fuel d s with
        | none => none
        | some ⟨some e, s'⟩ => some ⟨some e, s'⟩
        | some ⟨none, s'⟩ => loadDependenciesF env cfg fuel rest s' := by
  simp only [loadDependenciesF, loadDepsRun]

/-! ## Stage-function characterizations -/

/-- The detached schema-file fold touches only `schemasCreated`/`unhandled`. -/
theorem schemaFold_preserves (env : Env) :
    ∀ (files : List String) (st : LoaderState),
      ((files.foldl (schemaFileStep env) st).pluginsLoaded = st.pluginsLoaded ∧
       (files.foldl (schemaFileStep env) st).instances = st.instances) ∧
      ((files.foldl (schemaFileStep env) st).routes = st.routes ∧
       (files.foldl (schemaFileStep env) st).events = st.events) := by
  intro files
  induction files with
  | nil => intro st; exact ⟨⟨rfl, rfl⟩, ⟨rfl, rfl⟩⟩
  | cons f fs ih =>
      intro st
      rw [List.foldl_cons]
      have h := ih (schemaFileStep env st f)
      have hstep : ((schemaFileStep env st f).pluginsLoaded = st.pluginsLoaded ∧
          (schemaFileStep env st f).instances = st.instances) ∧
          ((schemaFileStep env st f).routes = st.routes ∧
           (schemaFileStep env st f).events = st.events) := by
        unfold schemaFileStep; split <;> exact ⟨⟨rfl, rfl⟩, ⟨rfl, rfl⟩⟩
      exact ⟨⟨h.1.1.trans hstep.1.1, h.1.2.trans hstep.1.2⟩,
             ⟨h.2.1.trans hstep.2.1, h.2.2.trans hstep.2.2⟩⟩

theorem loadDBSchema_pluginsLoaded (env : Env) (m : Manifest) (s : LoaderState) :
    (loadDBSchema env m s).pluginsLoaded = s.pluginsLoaded := by
  unfold loadDBSchema; exact (schemaFold_preserves env _ _).1.1

theorem loadDBSchema_instances (env : Env) (m : Manifest) (s : LoaderState) :
    (loadDBSchema env m s).instances = s.instances := by
  unfold loadDBSchema; exact (schemaFold_preserves env _ _).1.2

theorem loadDBSchema_events (env : Env) (m : Manifest) (s : LoaderState) :
    (loadDBSchema env m s).events = s.events ++ [Event.schemaStage m.id] := by
  unfold loadDBSchema; exact (schemaFold_preserves env _ _).2.2

/-- Shape of the state after steps 5-7: `_pluginsLoaded` is untouched and the
appended events are the stage events of `m.id`, starting with the
schema-stage entry. -/
theorem finishStages_spec (env : Env) (cfg : FrameworkConfig) (m : Manifest)
    (s : LoaderState) :
    (finishStages env cfg m s).state.pluginsLoaded = s.pluginsLoaded ∧
    ∃ t, (finishStages env cfg m s).state.events =
        s.events ++ Event.schemaStage m.id :: t ∧
      ∀ e ∈ t, e = Event.instantiated m.id ∨ e = Event.routesRegistered m.id := by
  unfold finishStages instantiatePlugin registerRoutes
  by_cases hsrv : env.serverModuleOk m.id
  · by_cases hrt : env.routerModuleOk m.id
    · simp only [hsrv, if_true, hrt]
      refine ⟨loadDBSchema_pluginsLoaded env m s, ⟨[Event.instantiated m.id,
        Event.routesRegistered m.id], ?_, ?_⟩⟩
      · simp [loadDBSchema_events]
      · intro e he
        simp only [List.mem_cons, List.mem_singleton] at he
        rcases he with h | h | h
        · exact Or.inl h
        · exact Or.inr h
        · cases h
    · simp only [hsrv, if_true, hrt, if_neg, ite_false]
      refine ⟨loadDBSchema_pluginsLoaded env m s,
        ⟨[Event.instantiated m.id], ?_, ?_⟩⟩
      · simp [loadDBSchema_events]
      · intro e he
        simp only [List.mem_singleton] at he
        exact Or.inl he
  · simp only [hsrv, ite_false]
    refine ⟨loadDBSchema_pluginsLoaded env m s, ⟨[], ?_, ?_⟩⟩
    · simp [loadDBSchema_events]
    · intro e he; cases he

/-- On success, steps 5-7 append exactly the three stage events. -/
theorem finishStages_ok_events (env : Env) (cfg : FrameworkConfig) (m : Manifest)
    (s : LoaderState) (h : (finishStages env cfg m s).error = none) :
    (finishStages env cfg m s).state.events =
      s.events ++ [Event.schemaStage m.id, Event.instantiated m.id,
        Event.routesRegistered m.id] := by
  unfold finishStages instantiatePlugin registerRoutes at h ⊢
  by_cases hsrv : env.serverModuleOk m.id
  · by_cases hrt : env.routerModuleOk m.id
    · simp [hsrv, hrt, loadDBSchema_events]
    · simp [hsrv, hrt] at h
  · simp [hsrv] at h

/-! ## Small list and reachability helpers -/

theorem nodup_push (l : List String) (a : String) (h : a ∉ l) (hn : l.Nodup) :
    (l ++ [a]).Nodup := by
  rw [List.nodup_append]
  refine ⟨hn, List.nodup_singleton a, ?_⟩
  intro x hx hxa
  rw [List.mem_singleton] at hxa
  subst hxa
  exact h hx

theorem mem_push (l : List String) (a : String) : a ∈ l ++ [a] :=
  List.mem_append_right _ (List.mem_singleton.mpr rfl)

theorem mem_of_push (l : List String) (a x : String) (h : x ∈ l ++ [a]) :
    x ∈ l ∨ x = a := by
  rcases List.mem_append.mp h with h1 | h1
  · exact Or.inl h1
  · exact Or.inr (List.mem_singleton.mp h1)

theorem reaches_refl (env : Env) (a : String) : Reaches env a a :=
  Relation.ReflTransGen.refl

theorem reaches_head (env : Env) {a b c : String} (h1 : DepRel env a b)
    (h2 : Reaches env b c) : Reaches env a c :=
  Relation.ReflTransGen.head h1 h2

theorem depRel_of_dep (env : Env) {a d : String} {m : Manifest}
    {deps : List IPlugin} (hm : lookupManifest env a = some m)
    (hd : m.server.dependencies = some deps) (hmem : d ∈ deps.map IPlugin.id) :
    DepRel env a d := by
  refine ⟨m, hm, ?_⟩
  unfold depIdsOf
  rw [hd]
  exact hmem

theorem claimState_pluginsLoaded (i : String) (s : LoaderState) :
    (claimState i s).pluginsLoaded = s.pluginsLoaded ++ [i] := rfl

theorem manifestState_claimState_events (i : String) (s : LoaderState) :
    (manifestState i (claimState i s)).events =
      s.events ++ [Event.claim i, Event.manifestResolved i] := by
  simp [manifestState, claimState]

theorem manifestState_claimState_pluginsLoaded (i : String) (s : LoaderState) :
    (manifestState i (claimState i s)).pluginsLoaded = s.pluginsLoaded ++ [i] :=
  rfl

/-! ## The main invariant of the loader -/

/-- `loadDependencies` inherits the `loadPlugin` invariant at the same fuel. -/
theorem loadDependenciesF_inv (env : Env) (cfg : FrameworkConfig) (fuel : Nat)
    (hLP : ∀ pluginId s r, loadPluginF env cfg fuel pluginId s = some r →
      LPConcl env pluginId s r) :
    ∀ ds s r, loadDependenciesF env cfg fuel ds s = some r →
      LDConcl env ds s r := by
  intro ds
  induction ds with
  | nil =>
      intro s r h
      rw [loadDependenciesF_nil] at h
      obtain rfl : (⟨none, s⟩ : LoadResult) = r := Option.some.inj h
      refine ⟨⟨[], by simp⟩, ⟨[], by simp⟩, ?_, ?_, ?_, ?_⟩
      · intro x hx; exact Or.inl hx
      · intro hn; exact hn
      · intro _ e he; exact Or.inl he
      · intro _ d hd; cases hd
  | cons d rest ih =>
      intro s r h
      rw [loadDependenciesF_cons] at h
      by_cases hc : s.pluginsLoaded.contains d
      · rw [if_pos hc] at h
        obtain ⟨hpre, hev, hmem, hnd, hevb, hok⟩ := ih s r h
        refine ⟨hpre, hev, ?_, hnd, ?_, ?_⟩
        · intro x hx
          rcases hmem x hx with h1 | ⟨d', hd', hrch⟩
          · exact Or.inl h1
          · exact Or.inr ⟨d', List.mem_cons_of_mem _ hd', hrch⟩
        · intro hwf e he
          rcases hevb hwf e he with h1 | ⟨hni, d', hd', hrch⟩
          · exact Or.inl h1
          · exact Or.inr ⟨hni, d', List.mem_cons_of_mem _ hd', hrch⟩
        · intro herr d' hd'
          rcases List.mem_cons.mp hd' with rfl | hd'
          · obtain ⟨t, ht⟩ := hpre
            rw [ht]
            exact List.mem_append_left _ ((contains_true_iff _ _).mp hc)
          · exact hok herr d' hd'
      · rw [if_neg hc] at h
        have hdns : d ∉ s.pluginsLoaded :=
          fun hm => hc ((contains_true_iff _ _).mpr hm)
        cases hlp : loadPluginF env cfg fuel d s with
        | none => rw [hlp] at h; cases h
        | some r' =>
            rw [hlp] at h
            obtain ⟨hpre1, hev1, hdmem, hmem1, hnd1, hevb1⟩ := hLP d s r' hlp
            obtain ⟨e', s'⟩ := r'
            cases e' with
            | some e =>
                obtain rfl : (⟨some e, s'⟩ : LoadResult) = r := Option.some.inj h
                refine ⟨hpre1, hev1, ?_, ?_, ?_, ?_⟩
                · intro x hx
                  rcases hmem1 x hx with h1 | hrch
                  · exact Or.inl h1
                  · exact Or.inr ⟨d, List.mem_cons_self _ _, hrch⟩
                · intro hn; exact hnd1 hdns hn
                · intro hwf e2 he2
                  rcases hevb1 hwf hdns e2 he2 with h1 | ⟨hni, hrch⟩
                  · exact Or.inl h1
                  · exact Or.inr ⟨hni, d, List.mem_cons_self _ _, hrch⟩
                · intro herr; exact (Option.some_ne_none _ herr).elim
            | none =>
                obtain ⟨hpre2, hev2, hmem2, hnd2, hevb2, hok2⟩ := ih s' r h
                obtain ⟨t1, ht1⟩ := hpre1
                obtain ⟨t2, ht2⟩ := hpre2
                obtain ⟨u1, hu1⟩ := hev1
                obtain ⟨u2, hu2⟩ := hev2
                refine ⟨⟨t1 ++ t2, by rw [ht2, ht1, List.append_assoc]⟩,
                        ⟨u1 ++ u2, by rw [hu2, hu1, List.append_assoc]⟩,
                        ?_, ?_, ?_, ?_⟩
                · intro x hx
                  rcases hmem2 x hx with h1 | ⟨d', hd', hrch⟩
                  · rcases hmem1 x h1 with h2 | hrch
                    · exact Or.inl h2
                    · exact Or.inr ⟨d, List.mem_cons_self _ _, hrch⟩
                  · exact Or.inr ⟨d', List.mem_cons_of_mem _ hd', hrch⟩
                · intro hn; exact hnd2 (hnd1 hdns hn)
                · intro hwf e2 he2
                  rcases hevb2 hwf e2 he2 with h1 | ⟨hni, d', hd', hrch⟩
                  · rcases hevb1 hwf hdns e2 h1 with h2 | ⟨hni, hrch⟩
                    · exact Or.inl h2
                    · exact Or.inr ⟨hni, d, List.mem_cons_self _ _, hrch⟩
                  · refine Or.inr ⟨?_, d', List.mem_cons_of_mem _ hd', hrch⟩
                    intro hmem
                    exact hni (by rw [ht1]; exact List.mem_append_left _ hmem)
                · intro herr d' hd'
                  rcases List.mem_cons.mp hd' with rfl | hd'
                  · rw [ht2]; exact List.mem_append_left _ hdmem
                  · exact hok2 herr d' hd'

/-- The `loadPlugin` invariant, for every fuel value. -/
theorem loadPluginF_inv : ∀ (fuel : Nat) (env : Env) (cfg : FrameworkConfig)
    (pluginId : String) (s : LoaderState) (r : LoadResult),
    loadPluginF env cfg fuel pluginId s = some r → LPConcl env pluginId s r := by
  intro fuel
  induction fuel with
  | zero =>
      intro env cfg pluginId s r h
      rw [loadPluginF_zero] at h
      cases h
  | succ fuel ih =>
      intro env cfg pluginId s r h
      rw [loadPluginF_succ] at h
      cases hm : lookupManifest env pluginId with
      | none =>
          simp only [hm] at h
          obtain rfl : _ = r := Option.some.inj h
          refine ⟨⟨[pluginId], rfl⟩, ⟨[Event.claim pluginId], rfl⟩,
            mem_push _ _, ?_, ?_, ?_⟩
          · intro x hx
            rcases mem_of_push _ _ _ hx with h1 | rfl
            · exact Or.inl h1
            · exact Or.inr (reaches_refl env x)
          · intro hni hn
            exact nodup_push _ _ hni hn
          · intro _ hni e he
            rcases List.mem_append.mp he with h1 | h1
            · exact Or.inl h1
            · rw [List.mem_singleton] at h1
              subst h1
              exact Or.inr ⟨hni, reaches_refl env pluginId⟩
      | some m =>
          simp only [hm] at h
          cases hdeps : m.server.dependencies with
          | none =>
              simp only [hdeps] at h
              obtain rfl : _ = r := Option.some.inj h
              refine ⟨⟨[pluginId], rfl⟩,
                ⟨[Event.claim pluginId, Event.manifestResolved pluginId],
                  manifestState_claimState_events pluginId s⟩,
                mem_push _ _, ?_, ?_, ?_⟩
              · intro x hx
                rcases mem_of_push _ _ _ hx with h1 | rfl
                · exact Or.inl h1
                · exact Or.inr (reaches_refl env x)
              · intro hni hn
                exact nodup_push _ _ hni hn
              · intro _ hni e he
                rw [manifestState_claimState_events] at he
                rcases List.mem_append.mp he with h1 | h1
                · exact Or.inl h1
                · rcases List.mem_cons.mp h1 with rfl | h1
                  · exact Or.inr ⟨hni, reaches_refl env pluginId⟩
                  · rw [List.mem_singleton] at h1
                    subst h1
                    exact Or.inr ⟨hni, reaches_refl env pluginId⟩
          | some deps =>
              simp only [hdeps] at h
              cases hld : loadDependenciesF env cfg fuel (deps.map IPlugin.id)
                  (manifestState pluginId (claimState pluginId s)) with
              | none => rw [hld] at h; cases h
              | some rd =>
                  rw [hld] at h
                  obtain ⟨hpre1, hev1, hmem1, hnd1, hevb1, hok1⟩ :=
                    loadDependenciesF_inv env cfg fuel
                      (fun p s r hh => ih env cfg p s r hh) _ _ _ hld
                  have hs2l := manifestState_claimState_pluginsLoaded pluginId s
                  have hs2e := manifestState_claimState_events pluginId s
                  obtain ⟨t1, ht1⟩ := hpre1
                  obtain ⟨u1, hu1⟩ := hev1
                  obtain ⟨e3, s3⟩ := rd
                  have hs3l : s3.pluginsLoaded = s.pluginsLoaded ++ [pluginId] ++ t1 := by
                    rw [ht1, hs2l]
                  have hs3e : s3.events =
                      s.events ++ [Event.claim pluginId,
                        Event.manifestResolved pluginId] ++ u1 := by
                    rw [hu1, hs2e]
                  have hplmem : pluginId ∈ s3.pluginsLoaded := by
                    rw [hs3l]
                    exact List.mem_append_left _ (mem_push _ _)
                  have hmemS : ∀ x, x ∈ s3.pluginsLoaded →
                      x ∈ s.pluginsLoaded ∨ Reaches env pluginId x := by
                    intro x hx
                    rcases hmem1 x hx with h1 | ⟨d', hd', hrch⟩
                    · rw [hs2l] at h1
                      rcases mem_of_push _ _ _ h1 with h2 | rfl
                      · exact Or.inl h2
                      · exact Or.inr (reaches_refl env x)
                    · exact Or.inr
                        (reaches_head env (depRel_of_dep env hm hdeps hd') hrch)
                  have hndS : pluginId ∉ s.pluginsLoaded → s.pluginsLoaded.Nodup →
                      s3.pluginsLoaded.Nodup := by
                    intro hni hn
                    apply hnd1
                    rw [hs2l]
                    exact nodup_push _ _ hni hn
                  have hevS : WFEnv env → pluginId ∉ s.pluginsLoaded →
                      ∀ e ∈ s3.events, e ∈ s.events ∨
                        (e.eventId ∉ s.pluginsLoaded ∧
                          Reaches env pluginId e.eventId) := by
                    intro hwf hni e2 he2
                    rcases hevb1 hwf e2 he2 with h1 | ⟨hni2, d', hd', hrch⟩
                    · rw [hs2e] at h1
                      rcases List.mem_append.mp h1 with h2 | h2
                      · exact Or.inl h2
                      · rcases List.mem_cons.mp h2 with rfl | h2
                        · exact Or.inr ⟨hni, reaches_refl env pluginId⟩
                        · rw [List.mem_singleton] at h2
                          subst h2
                          exact Or.inr ⟨hni, reaches_refl env pluginId⟩
                    · refine Or.inr ⟨?_,
                        reaches_head env (depRel_of_dep env hm hdeps hd') hrch⟩
                      intro hx
                      exact hni2 (by rw [hs2l]; exact List.mem_append_left _ hx)
                  cases e3 with
                  | some e =>
                      obtain rfl : (⟨some e, s3⟩ : LoadResult) = r :=
                        Option.some.inj h
                      exact ⟨⟨[pluginId] ++ t1, by
                          rw [hs3l, List.append_assoc]⟩,
                        ⟨[Event.claim pluginId, Event.manifestResolved pluginId]
                            ++ u1, by rw [hs3e, List.append_assoc]⟩,
                        hplmem, hmemS, hndS, hevS⟩
                  | none =>
                      obtain rfl : finishStages env cfg m s3 = r :=
                        Option.some.inj h
                      obtain ⟨hfl, tf, htf, htchar⟩ := finishStages_spec env cfg m s3
                      refine ⟨⟨[pluginId] ++ t1, by
                          rw [hfl, hs3l, List.append_assoc]⟩,
                        ⟨[Event.claim pluginId, Event.manifestResolved pluginId]
                            ++ u1 ++ (Event.schemaStage m.id :: tf), by
                          rw [htf, hs3e]; simp [List.append_assoc]⟩,
                        ?_, ?_, ?_, ?_⟩
                      · rw [hfl]; exact hplmem
                      · intro x hx; rw [hfl] at hx; exact hmemS x hx
                      · intro hni hn; rw [hfl]; exact hndS hni hn
                      · intro hwf hni e2 he2
                        rw [htf] at he2
                        rcases List.mem_append.mp he2 with h1 | h1
                        · exact hevS hwf hni e2 h1
                        · have hid : e2.eventId = m.id := by
                            rcases List.mem_cons.mp h1 with rfl | h1
                            · rfl
                            · rcases htchar e2 h1 with rfl | rfl <;> rfl
                          have hmid : m.id = pluginId := hwf pluginId m hm
                          rw [hid, hmid]
                          exact Or.inr ⟨hni, reaches_refl env pluginId⟩

/-! ## Totality: the canonical fuel always suffices -/

theorem contains_false_iff (l : List String) (a : String) :
    l.contains a = false ↔ a ∉ l := by
  rw [Bool.eq_false_iff]
  exact not_congr (contains_true_iff l a)

theorem filter_length_le (keys : List String) (p q : String → Bool)
    (hmono : ∀ k, p k = true → q k = true) :
    (keys.filter p).length ≤ (keys.filter q).length := by
  induction keys with
  | nil => exact Nat.le_refl _
  | cons k ks ih =>
      by_cases hpk : p k = true
      · rw [List.filter_cons_of_pos hpk, List.filter_cons_of_pos (hmono k hpk)]
        exact Nat.succ_le_succ ih
      · rw [List.filter_cons_of_neg hpk]
        by_cases hqk : q k = true
        · rw [List.filter_cons_of_pos hqk]
          exact Nat.le_succ_of_le ih
        · rw [List.filter_cons_of_neg hqk]
          exact ih

theorem filter_length_lt (keys : List String) (p q : String → Bool)
    (hmono : ∀ k, p k = true → q k = true) (a : String) (ha : a ∈ keys)
    (hpa : p a = false) (hqa : q a = true) :
    (keys.filter p).length < (keys.filter q).length := by
  induction keys with
  | nil => cases ha
  | cons k ks ih =>
      rcases List.mem_cons.mp ha with rfl | ha'
      · rw [List.filter_cons_of_neg (by simp [hpa]), List.filter_cons_of_pos hqa]
        exact Nat.lt_succ_of_le (filter_length_le ks p q hmono)
      · by_cases hpk : p k = true
        · rw [List.filter_cons_of_pos hpk, List.filter_cons_of_pos (hmono k hpk)]
          exact Nat.succ_lt_succ (ih ha')
        · rw [List.filter_cons_of_neg hpk]
          by_cases hqk : q k = true
          · rw [List.filter_cons_of_pos hqk]
            exact Nat.lt_succ_of_lt (ih ha')
          · rw [List.filter_cons_of_neg hqk]
            exact ih ha'

/-- Claiming more plugins never increases the number of unclaimed keys. -/
theorem unseen_append_le (env : Env) (l t : List String) :
    unseen env (l ++ t) ≤ unseen env l := by
  unfold unseen
  apply filter_length_le
  intro k hk
  rw [Bool.not_eq_true'] at hk ⊢
  rw [contains_false_iff] at hk ⊢
  intro hmem
  exact hk (List.mem_append_left _ hmem)

/-- Claiming a previously unclaimed key strictly shrinks the measure. -/
theorem unseen_push_lt (env : Env) (l : List String) (a : String)
    (ha : a ∈ env.manifests.map Prod.fst) (hna : a ∉ l) :
    unseen env (l ++ [a]) < unseen env l := by
  unfold unseen
  apply filter_length_lt _ _ _ ?_ a ha ?_ ?_
  · intro k hk
    rw [Bool.not_eq_true'] at hk ⊢
    rw [contains_false_iff] at hk ⊢
    intro hmem
    exact hk (List.mem_append_left _ hmem)
  · rw [Bool.not_eq_false']
    exact (contains_true_iff _ _).mpr (mem_push l a)
  · rw [Bool.not_eq_true']
    exact (contains_false_iff _ _).mpr hna

/-- A successful manifest lookup means the id is one of the manifest keys. -/
theorem mem_keys_of_lookup (env : Env) (pluginId : String) (m : Manifest)
    (h : lookupManifest env pluginId = some m) :
    pluginId ∈ env.manifests.map Prod.fst := by
  unfold lookupManifest at h
  cases hf : env.manifests.find? (fun p => p.fst == pluginId) with
  | none => rw [hf] at h; cases h
  | some p =>
      have hp := List.find?_some hf
      have hmem := List.mem_of_find?_eq_some hf
      have hpe : p.fst = pluginId := by simpa using hp
      rw [← hpe]
      exact List.mem_map.mpr ⟨p, hmem, rfl⟩

/-- Termination of the recursive loader: with fuel exceeding the number of
unclaimed manifest keys, `loadPluginF` always completes.  This is the
formal content of "the recursion cannot be unbounded": the number of nested
`loadPlugin` frames is bounded by the (finite) module universe. -/
theorem loadPluginF_total : ∀ (fuel : Nat) (env : Env) (cfg : FrameworkConfig)
    (pluginId : String) (s : LoaderState),
    unseen env s.pluginsLoaded < fuel →
    (pluginId ∈ s.pluginsLoaded → unseen env s.pluginsLoaded + 1 < fuel) →
    (loadPluginF env cfg fuel pluginId s).isSome := by
  intro fuel
  induction fuel with
  | zero =>
      intro env cfg pluginId s h1 _
      exact absurd h1 (Nat.not_lt_zero _)
  | succ fuel ih =>
      intro env cfg pluginId s h1 h2
      have hLD : ∀ (ds : List String), ∀ (s' : LoaderState),
          unseen env s'.pluginsLoaded < fuel →
          (loadDependenciesF env cfg fuel ds s').isSome := by
        intro ds
        induction ds with
        | nil =>
            intro s' _
            rw [loadDependenciesF_nil]
            rfl
        | cons d rest ihd =>
            intro s' hu
            rw [loadDependenciesF_cons]
            by_cases hc : s'.pluginsLoaded.contains d
            · rw [if_pos hc]
              exact ihd s' hu
            · rw [if_neg hc]
              have hdns : d ∉ s'.pluginsLoaded :=
                fun hm => hc ((contains_true_iff _ _).mpr hm)
              have hsome := ih env cfg d s' hu (fun hmem => absurd hmem hdns)
              obtain ⟨r', hr'⟩ := Option.isSome_iff_exists.mp hsome
              rw [hr']
              obtain ⟨e', s''⟩ := r'
              cases e' with
              | some e => rfl
              | none =>
                  apply ihd
                  obtain ⟨⟨t, ht⟩, -⟩ := loadPluginF_inv fuel env cfg d s' _ hr'
                  calc unseen env s''.pluginsLoaded
                      ≤ unseen env s'.pluginsLoaded := by
                        rw [ht]; exact unseen_append_le env _ _
                    _ < fuel := hu
      rw [loadPluginF_succ]
      split
      · rfl
      · rename_i m hm
        split
        · rfl
        · rename_i deps hdeps
          have hu2 : unseen env
              (manifestState pluginId (claimState pluginId s)).pluginsLoaded
                < fuel := by
            rw [manifestState_claimState_pluginsLoaded]
            by_cases hmem : pluginId ∈ s.pluginsLoaded
            · have hstep := h2 hmem
              have hle := unseen_append_le env s.pluginsLoaded [pluginId]
              omega
            · have hlt := unseen_push_lt env s.pluginsLoaded pluginId
                (mem_keys_of_lookup env pluginId m hm) hmem
              omega
          obtain ⟨rd, hrd⟩ := Option.isSome_iff_exists.mp
            (hLD (deps.map IPlugin.id) _ hu2)
          rw [hrd]
          obtain ⟨e3, s3⟩ := rd
          cases e3 <;> rfl

/-- The canonical fuel of `loadPlugin` is always sufficient. -/
theorem loadPlugin_isSome (env : Env) (cfg : FrameworkConfig)
    (pluginId : String) (s : LoaderState) :
    (loadPluginF env cfg (defaultFuel env s) pluginId s).isSome :=
  loadPluginF_total _ env cfg pluginId s (by unfold defaultFuel; omega)
    (fun _ => by unfold defaultFuel; omega)

/-- `loadPlugin` is the value computed by the fueled interpreter. -/
theorem loadPlugin_eq (env : Env) (cfg : FrameworkConfig) (pluginId : String)
    (s : LoaderState) :
    loadPluginF env cfg (defaultFuel env s) pluginId s =
      some (loadPlugin env cfg pluginId s) := by
  obtain ⟨r, hr⟩ := Option.isSome_iff_exists.mp
    (loadPlugin_isSome env cfg pluginId s)
  unfold loadPlugin
  rw [hr]
  rfl

/-! ## The exact trace segment of a successful load -/

/-- A successful `loadPlugin` call appends the claim and manifest events, then
its dependency segment, then exactly the schema/instantiate/route events. -/
theorem loadPluginF_ok_events (env : Env) (cfg : FrameworkConfig) (fuel : Nat)
    (pluginId : String) (s : LoaderState) (r : LoadResult)
    (h : loadPluginF env cfg fuel pluginId s = some r) (hok : r.error = none) :
    ∃ m t, lookupManifest env pluginId = some m ∧
      r.state.events =
        s.events ++ [Event.claim pluginId, Event.manifestResolved pluginId]
          ++ t ++ [Event.schemaStage m.id, Event.instantiated m.id,
                   Event.routesRegistered m.id] := by
  cases fuel with
  | zero => rw [loadPluginF_zero] at h; cases h
  | succ fuel =>
      rw [loadPluginF_succ] at h
      cases hm : lookupManifest env pluginId with
      | none =>
          simp only [hm] at h
          obtain rfl : _ = r := Option.some.inj h
          exact absurd hok (Option.some_ne_none _)
      | some m =>
          simp only [hm] at h
          cases hdeps : m.server.dependencies with
          | none =>
              simp only [hdeps] at h
              obtain rfl : _ = r := Option.some.inj h
              exact absurd hok (Option.some_ne_none _)
          | some deps =>
              simp only [hdeps] at h
              cases hld : loadDependenciesF env cfg fuel (deps.map IPlugin.id)
                  (manifestState pluginId (claimState pluginId s)) with
              | none => rw [hld] at h; cases h
              | some rd =>
                  rw [hld] at h
                  obtain ⟨e3, s3⟩ := rd
                  cases e3 with
                  | some e =>
                      obtain rfl : _ = r := Option.some.inj h
                      exact absurd hok (Option.some_ne_none _)
                  | none =>
                      obtain rfl : finishStages env cfg m s3 = r :=
                        Option.some.inj h
                      obtain ⟨-, ⟨u, hu⟩, -, -, -, -⟩ :=
                        loadDependenciesF_inv env cfg fuel
                          (fun p s r hh => loadPluginF_inv fuel env cfg p s r hh)
                          _ _ _ hld
                      refine ⟨m, u, rfl, ?_⟩
                      rw [finishStages_ok_events env cfg m s3 hok, hu,
                        manifestState_claimState_events]

/-! ## Fatal propagation of a missing dependency manifest -/

/-- `loadDependencies` version of the fatal-propagation lemma, given the
`loadPlugin` version at the same fuel. -/
theorem loadC5LD (env : Env) (cfg : FrameworkConfig) (d : String) (fuel : Nat)
    (hLP : ∀ (root : String) (s : LoaderState) (r : LoadResult),
      loadPluginF env cfg fuel root s = some r →
      Event.claim d ∉ s.events → Event.claim d ∈ r.state.events →
      r.error = some (JsError.framework
        ⟨FrameworkErrorCode.manifestNotFound, manifestErrMsg cfg d⟩) ∧
      ∃ pre, r.state.events = pre ++ [Event.claim d]) :
    ∀ (ds : List String) (s : LoaderState) (r : LoadResult),
      loadDependenciesF env cfg fuel ds s = some r →
      Event.claim d ∉ s.events → Event.claim d ∈ r.state.events →
      r.error = some (JsError.framework
        ⟨FrameworkErrorCode.manifestNotFound, manifestErrMsg cfg d⟩) ∧
      ∃ pre, r.state.events = pre ++ [Event.claim d] := by
  intro ds
  induction ds with
  | nil =>
      intro s r h hnotin hclaim
      rw [loadDependenciesF_nil] at h
      obtain rfl : (⟨none, s⟩ : LoadResult) = r := Option.some.inj h
      exact absurd hclaim hnotin
  | cons dd rest ih =>
      intro s r h hnotin hclaim
      rw [loadDependenciesF_cons] at h
      by_cases hc : s.pluginsLoaded.contains dd
      · rw [if_pos hc] at h
        exact ih s r h hnotin hclaim
      · rw [if_neg hc] at h
        cases hlp : loadPluginF env cfg fuel dd s with
        | none => rw [hlp] at h; cases h
        | some r' =>
            rw [hlp] at h
            obtain ⟨e', s'⟩ := r'
            cases e' with
            | some e =>
                obtain rfl : (⟨some e, s'⟩ : LoadResult) = r := Option.some.inj h
                obtain ⟨herr, hpre⟩ := hLP dd s ⟨some e, s'⟩ hlp hnotin hclaim
                exact ⟨herr, hpre⟩
            | none =>
                have hnotin' : Event.claim d ∉ s'.events := by
                  intro hmem
                  obtain ⟨herr, -⟩ := hLP dd s ⟨none, s'⟩ hlp hnotin hmem
                  exact Option.some_ne_none _ herr.symm
                exact ih s' r h hnotin' hclaim

/-- Fatal propagation: if a plugin whose manifest module is missing gets
claimed during a load, the whole call rejects with the `MANIFEST_NOT_FOUND`
error whose root path names that plugin, and the trace stops at that claim
(no later stage of any plugin runs). -/
theorem loadC5LP : ∀ (fuel : Nat) (env : Env) (cfg : FrameworkConfig)
    (d : String), lookupManifest env d = none →
    ∀ (root : String) (s : LoaderState) (r : LoadResult),
      loadPluginF env cfg fuel root s = some r →
      Event.claim d ∉ s.events → Event.claim d ∈ r.state.events →
      r.error = some (JsError.framework
        ⟨FrameworkErrorCode.manifestNotFound, manifestErrMsg cfg d⟩) ∧
      ∃ pre, r.state.events = pre ++ [Event.claim d] := by
  intro fuel
  induction fuel with
  | zero =>
      intro env cfg d hmiss root s r h hnotin hclaim
      rw [loadPluginF_zero] at h
      cases h
  | succ fuel ih =>
      intro env cfg d hmiss root s r h hnotin hclaim
      rw [loadPluginF_succ] at h
      cases hm : lookupManifest env root with
      | none =>
          simp only [hm] at h
          obtain rfl : _ = r := Option.some.inj h
          rcases List.mem_append.mp hclaim with h1 | h1
          · exact absurd h1 hnotin
          · rw [List.mem_singleton] at h1
            obtain rfl : d = root := by
              injection h1
            exact ⟨rfl, ⟨s.events, rfl⟩⟩
      | some m =>
          have hne : root ≠ d := by
            intro heq
            rw [heq, hmiss] at hm
            cases hm
          simp only [hm] at h
          cases hdeps : m.server.dependencies with
          | none =>
              simp only [hdeps] at h
              obtain rfl : _ = r := Option.some.inj h
              rw [manifestState_claimState_events] at hclaim
              rcases List.mem_append.mp hclaim with h1 | h1
              · exact absurd h1 hnotin
              · rcases List.mem_cons.mp h1 with h2 | h2
                · exact absurd (by injection h2) (Ne.symm hne)
                · rw [List.mem_singleton] at h2
                  cases h2
          | some deps =>
              simp only [hdeps] at h
              have hnotin2 : Event.claim d ∉
                  (manifestState root (claimState root s)).events := by
                rw [manifestState_claimState_events]
                intro hmem
                rcases List.mem_append.mp hmem with h1 | h1
                · exact hnotin h1
                · rcases List.mem_cons.mp h1 with h2 | h2
                  · exact (Ne.symm hne) (by injection h2)
                  · rw [List.mem_singleton] at h2
                    cases h2
              cases hld : loadDependenciesF env cfg fuel (deps.map IPlugin.id)
                  (manifestState root (claimState root s)) with
              | none => rw [hld] at h; cases h
              | some rd =>
                  rw [hld] at h
                  obtain ⟨e3, s3⟩ := rd
                  cases e3 with
                  | some e =>
                      obtain rfl : (⟨some e, s3⟩ : LoadResult) = r :=
                        Option.some.inj h
                      exact loadC5LD env cfg d fuel
                        (ih env cfg d hmiss) _ _ _ hld hnotin2 hclaim
                  | none =>
                      obtain rfl : finishStages env cfg m s3 = r :=
                        Option.some.inj h
                      have hnotin3 : Event.claim d ∉ s3.events := by
                        intro hmem
                        obtain ⟨herr, -⟩ := loadC5LD env cfg d fuel
                          (ih env cfg d hmiss) _ _ _ hld hnotin2 hmem
                        exact Option.some_ne_none _ herr.symm
                      obtain ⟨-, tf, htf, htchar⟩ := finishStages_spec env cfg m s3
                      rw [htf] at hclaim
                      rcases List.mem_append.mp hclaim with h1 | h1
                      · exact absurd h1 hnotin3
                      · rcases List.mem_cons.mp h1 with h2 | h2
                        · cases h2
                        · rcases htchar _ h2 with h3 | h3 <;> cases h3

/-! ## Trace-order helpers -/

/-- If `a` occurs in a prefix that does not contain `b`, and `b` occurs in the
rest, then `a` occurs before `b`. -/
theorem occursBeforeB_of_split (l1 l2 : List Event) (a b : Event)
    (ha : a ∈ l1) (hb1 : b ∉ l1) (hb2 : b ∈ l2) :
    occursBeforeB (l1 ++ l2) a b = true := by
  induction l1 with
  | nil => cases ha
  | cons e tl ih =>
      rw [List.cons_append]
      unfold occursBeforeB
      by_cases he : e = a
      · rw [if_pos he]
        exact List.elem_iff.mpr (List.mem_append_right _ hb2)
      · rw [if_neg he]
        apply ih
        · rcases List.mem_cons.mp ha with h1 | h1
          · exact absurd h1.symm he
          · exact h1
        · intro hb
          exact hb1 (List.mem_cons_of_mem _ hb)

/-- A closed-set criterion for refuting reachability. -/
theorem not_reaches_of_closed (env : Env) (S : List String) (a b : String)
    (haS : a ∈ S) (hbS : b ∉ S)
    (hclosed : ∀ x ∈ S, ∀ y, DepRel env x y → y ∈ S) :
    ¬ Reaches env a b := by
  intro h
  have hall : ∀ c, Reaches env a c → c ∈ S := by
    intro c hc
    induction hc with
    | refl => exact haS
    | tail h1 h2 ih => exact hclosed _ ih _ h2
  exact hbS (hall b h)

theorem map_ipluginId_pair (a b : String) :
    (([⟨a⟩, ⟨b⟩] : List IPlugin).map IPlugin.id) = [a, b] := rfl

/-- Every `loadPlugin` call records the claim of its argument in the trace. -/
theorem loadPluginF_claim_event (env : Env) (cfg : FrameworkConfig) (fuel : Nat)
    (pluginId : String) (s : LoaderState) (r : LoadResult)
    (h : loadPluginF env cfg fuel pluginId s = some r) :
    Event.claim pluginId ∈ r.state.events := by
  cases fuel with
  | zero => rw [loadPluginF_zero] at h; cases h
  | succ fuel =>
      rw [loadPluginF_succ] at h
      cases hm : lookupManifest env pluginId with
      | none =>
          simp only [hm] at h
          obtain rfl : _ = r := Option.some.inj h
          exact List.mem_append_right _ (List.mem_singleton.mpr rfl)
      | some m =>
          simp only [hm] at h
          cases hdeps : m.server.dependencies with
          | none =>
              simp only [hdeps] at h
              obtain rfl : _ = r := Option.some.inj h
              rw [manifestState_claimState_events]
              exact List.mem_append_right _ (List.mem_cons_self _ _)
          | some deps =>
              simp only [hdeps] at h
              cases hld : loadDependenciesF env cfg fuel (deps.map IPlugin.id)
                  (manifestState pluginId (claimState pluginId s)) with
              | none => rw [hld] at h; cases h
              | some rd =>
                  rw [hld] at h
                  obtain ⟨e3, s3⟩ := rd
                  obtain ⟨-, ⟨u, hu⟩, -, -, -, -⟩ :=
                    loadDependenciesF_inv env cfg fuel
                      (fun p s r hh => loadPluginF_inv fuel env cfg p s r hh)
                      _ _ _ hld
                  have hmem : Event.claim pluginId ∈ s3.events := by
                    rw [hu, manifestState_claimState_events]
                    exact List.mem_append_left _
                      (List.mem_append_right _ (List.mem_cons_self _ _))
                  cases e3 with
                  | some e =>
                      obtain rfl : _ = r := Option.some.inj h
                      exact hmem
                  | none =>
                      obtain rfl : finishStages env cfg m s3 = r :=
                        Option.some.inj h
                      obtain ⟨-, tf, htf, -⟩ := finishStages_spec env cfg m s3
                      rw [htf]
                      exact List.mem_append_left _ hmem

/-- On success, every dependency declared in the manifest has been claimed. -/
theorem loadPluginF_ok_deps_claimed (env : Env) (cfg : FrameworkConfig)
    (fuel : Nat) (pluginId : String) (s : LoaderState) (r : LoadResult)
    (m : Manifest) (h : loadPluginF env cfg fuel pluginId s = some r)
    (hok : r.error = none) (hm : lookupManifest env pluginId = some m) :
    ∀ d ∈ depIdsOf m, d ∈ r.state.pluginsLoaded := by
  cases fuel with
  | zero => rw [loadPluginF_zero] at h; cases h
  | succ fuel =>
      rw [loadPluginF_succ] at h
      simp only [hm] at h
      cases hdeps : m.server.dependencies with
      | none =>
          simp only [hdeps] at h
          obtain rfl : _ = r := Option.some.inj h
          exact absurd hok (Option.some_ne_none _)
      | some deps =>
          simp only [hdeps] at h
          cases hld : loadDependenciesF env cfg fuel (deps.map IPlugin.id)
              (manifestState pluginId (claimState pluginId s)) with
          | none => rw [hld] at h; cases h
          | some rd =>
              rw [hld] at h
              obtain ⟨e3, s3⟩ := rd
              obtain ⟨-, -, -, -, -, hok1⟩ :=
                loadDependenciesF_inv env cfg fuel
                  (fun p s r hh => loadPluginF_inv fuel env cfg p s r hh)
                  _ _ _ hld
              cases e3 with
              | some e =>
                  obtain rfl : _ = r := Option.some.inj h
                  exact absurd hok (Option.some_ne_none _)
              | none =>
                  obtain rfl : finishStages env cfg m s3 = r := Option.some.inj h
                  obtain ⟨hfl, -⟩ := finishStages_spec env cfg m s3
                  intro d hd
                  rw [hfl]
                  apply hok1 rfl
                  unfold depIdsOf at hd
                  rw [hdeps] at hd
                  exact hd

/-! ## Claim theorems -/

/-- C6: for the diamond graph `{A: [], B: [A], C: [A], D: [B, C]}`,
`loadPlugin(D)` succeeds and performs A's claim and every pipeline stage of A
exactly once, even though A is a dependency of both B and C. -/
theorem c6_diamond_loads_A_once :
    (loadPlugin envDiamond cfg0 "D" initState).error = none ∧
    (loadPlugin envDiamond cfg0 "D" initState).state.pluginsLoaded.count "A"
      = 1 ∧
    (loadPlugin envDiamond cfg0 "D" initState).state.events.count
      (Event.claim "A") = 1 ∧
    (loadPlugin envDiamond cfg0 "D" initState).state.events.count
      (Event.manifestResolved "A") = 1 ∧
    (loadPlugin envDiamond cfg0 "D" initState).state.events.count
      (Event.schemaStage "A") = 1 ∧
    (loadPlugin envDiamond cfg0 "D" initState).state.events.count
      (Event.instantiated "A") = 1 ∧
    (loadPlugin envDiamond cfg0 "D" initState).state.events.count
      (Event.routesRegistered "A") = 1 := by
  decide

/-- C7: for the linear chain `{A: [], B: [A], C: [B]}`, `loadPlugin(C)`
succeeds, the Plugin Runtime Registry holds instances for A, B and C, and the
instantiations completed in the order A, then B, then C. -/
theorem c7_linear_chain_completion_order :
    (loadPlugin envChain cfg0 "C" initState).error = none ∧
    (loadPlugin envChain cfg0 "C" initState).state.instances = ["A", "B", "C"] ∧
    (loadPlugin envChain cfg0 "C" initState).state.events.filter
        (fun e => match e with | Event.instantiated _ => true | _ => false) =
      [Event.instantiated "A", Event.instantiated "B", Event.instantiated "C"]
      := by
  decide

/-- C2, code behaviour at the failing input: plugin `X` has one schema
descriptor whose activation fails, yet `loadPlugin(X)` resolves successfully,
`X` is instantiated into the Plugin Runtime Registry (stage 6) and its routes
are registered (stage 7).  The `SCHEMA_LOADER_FAILED` error is stranded as an
unhandled rejection because `loadDBSchema` fires the `glob` callback and
returns without awaiting it, so the claimed rejection with a schema error
never reaches the caller. -/
theorem c2_schema_failure_not_propagated :
    (loadPlugin envSchemaFail cfg0 "X" initState).error = none ∧
    "X" ∈ (loadPlugin envSchemaFail cfg0 "X" initState).state.instances ∧
    Event.instantiated "X" ∈
      (loadPlugin envSchemaFail cfg0 "X" initState).state.events ∧
    Event.routesRegistered "X" ∈
      (loadPlugin envSchemaFail cfg0 "X" initState).state.events ∧
    (loadPlugin envSchemaFail cfg0 "X" initState).state.unhandled =
      [⟨FrameworkErrorCode.schemaLoaderFailed, "/plugins/X/db/schema_1.json"⟩]
      := by
  decide

/-- C3 counterexample: a second top-level `loadPlugin("A")` call is not a
no-op — `loadPlugin` never consults the loaded set (only `loadDependencies`
does), so the second call pushes `"A"` a second time and re-runs every stage
(schema, instantiation, route registration all happen twice). -/
theorem c3_counterexample_double_load :
    (loadPlugin envSingleA cfg0 "A"
        (loadPlugin envSingleA cfg0 "A" initState).state).state.pluginsLoaded
      = ["A", "A"] ∧
    (loadPlugin envSingleA cfg0 "A"
        (loadPlugin envSingleA cfg0 "A" initState).state).state.events.count
        (Event.instantiated "A") = 2 ∧
    (loadPlugin envSingleA cfg0 "A"
        (loadPlugin envSingleA cfg0 "A" initState).state).state.events.count
        (Event.routesRegistered "A") = 2 ∧
    (loadPlugin envSingleA cfg0 "A"
        (loadPlugin envSingleA cfg0 "A" initState).state).state.events.count
        (Event.schemaStage "A") = 2 := by
  decide

/-- C3 amended: deduplication applies only on the dependency path —
`loadDependencies` skips any id already present in the loaded set, so a
plugin reached again as a dependency is not re-claimed and none of its stage
work re-runs; a direct second top-level `loadPlugin` call for the same id,
however, re-executes the pipeline and pushes the id again. -/
theorem c3_amended_dependency_skip (env : Env) (cfg : FrameworkConfig)
    (fuel : Nat) (d : String) (rest : List String) (s : LoaderState)
    (h : d ∈ s.pluginsLoaded) :
    loadDependenciesF env cfg fuel (d :: rest) s =
      loadDependenciesF env cfg fuel rest s := by
  rw [loadDependenciesF_cons, if_pos ((contains_true_iff _ _).mpr h)]

/-- Witness for `c3_amended_dependency_skip` at a concrete claimed id. -/
theorem c3_amended_dependency_skip_witness :
    "A" ∈ failResultA.state.pluginsLoaded ∧
    loadDependenciesF envSingleA cfg0 5 ["A", "B"] failResultA.state =
      loadDependenciesF envSingleA cfg0 5 ["B"] failResultA.state :=
  ⟨by decide, c3_amended_dependency_skip envSingleA cfg0 5 "A" ["B"]
    failResultA.state (by decide)⟩

/-- C8: whatever the outcome of a `loadPlugin` call — including rejection at
the manifest, schema, instantiation or route stage — the loaded set only ever
grows by appending (no id is ever removed), the requested id stays claimed,
and a retried dependency load of that id within the same run finds the claim
present and is skipped. -/
theorem c8_claim_never_rolled_back (env : Env) (cfg : FrameworkConfig)
    (fuel : Nat) (pluginId : String) (s : LoaderState) (r : LoadResult)
    (h : loadPluginF env cfg fuel pluginId s = some r) :
    (∃ t, r.state.pluginsLoaded = s.pluginsLoaded ++ t) ∧
    pluginId ∈ r.state.pluginsLoaded ∧
    ∀ (fuel' : Nat) (ds : List String),
      loadDependenciesF env cfg fuel' (pluginId :: ds) r.state =
        loadDependenciesF env cfg fuel' ds r.state := by
  obtain ⟨h1, -, h3, -, -, -⟩ := loadPluginF_inv fuel env cfg pluginId s r h
  refine ⟨h1, h3, ?_⟩
  intro fuel' ds
  rw [loadDependenciesF_cons, if_pos ((contains_true_iff _ _).mpr h3)]

/-- Witness for `c8_claim_never_rolled_back` at a load that fails during
instantiation. -/
theorem c8_claim_never_rolled_back_witness :
    loadPluginF envInstFail cfg0 3 "A" initState = some failResultA ∧
    "A" ∈ failResultA.state.pluginsLoaded ∧
    loadDependenciesF envInstFail cfg0 4 ["A", "B"] failResultA.state =
      loadDependenciesF envInstFail cfg0 4 ["B"] failResultA.state :=
  ⟨by decide,
   (c8_claim_never_rolled_back envInstFail cfg0 3 "A" initState failResultA
      (by decide)).2.1,
   (c8_claim_never_rolled_back envInstFail cfg0 3 "A" initState failResultA
      (by decide)).2.2 4 ["B"]⟩

/-- C5: if a dependency whose manifest module is missing gets claimed during
the depth-first traversal, the top-level call rejects with
`MANIFEST_NOT_FOUND` whose root error names that dependency's manifest path
(attributing the failure to its id), and the trace ends at that claim — no
pipeline stage of any plugin that would have been loaded later executes. -/
theorem c5_missing_manifest_fatal (env : Env) (cfg : FrameworkConfig)
    (root d : String) (hmiss : lookupManifest env d = none)
    (hclaim : Event.claim d ∈
      (loadPlugin env cfg root initState).state.events) :
    (loadPlugin env cfg root initState).error =
      some (JsError.framework ⟨FrameworkErrorCode.manifestNotFound,
        manifestErrMsg cfg d⟩) ∧
    ∃ pre, (loadPlugin env cfg root initState).state.events =
      pre ++ [Event.claim d] :=
  loadC5LP _ env cfg d hmiss root initState _
    (loadPlugin_eq env cfg root initState)
    (fun hx => by simp [initState] at hx) hclaim

/-- Witness for `c5_missing_manifest_fatal`: `P` depends on the manifest-less
`Dm`. -/
theorem c5_missing_manifest_fatal_witness :
    lookupManifest envDepMissing "Dm" = none ∧
    Event.claim "Dm" ∈
      (loadPlugin envDepMissing cfg0 "P" initState).state.events ∧
    (loadPlugin envDepMissing cfg0 "P" initState).error =
      some (JsError.framework ⟨FrameworkErrorCode.manifestNotFound,
        manifestErrMsg cfg0 "Dm"⟩) :=
  ⟨by decide, by decide,
   (c5_missing_manifest_fatal envDepMissing cfg0 "P" "Dm" (by decide)
      (by decide)).1⟩

/-- C10: the guard `typeof(manifest.server.dependencies) !== undefined`
compares a string against the value `undefined` and is therefore true for
every manifest, so the dependency stage is entered unconditionally; for a
manifest whose `dependencies` field is absent, `loadPlugin` rejects with the
raw iteration `TypeError` — not one of the typed `FrameworkError`s — right
after the claim and manifest-resolution steps. -/
theorem c10_undefined_guard_type_error :
    (∀ deps : Option (List IPlugin), dependenciesGuard deps = true) ∧
    ∀ (env : Env) (cfg : FrameworkConfig) (pluginId : String) (s : LoaderState)
      (m : Manifest), lookupManifest env pluginId = some m →
      m.server.dependencies = none →
      loadPlugin env cfg pluginId s =
        ⟨some (JsError.typeError iterErrMsg),
         manifestState pluginId (claimState pluginId s)⟩ := by
  refine ⟨dependenciesGuard_eq_true, ?_⟩
  intro env cfg pluginId s m hm hdeps
  unfold loadPlugin
  rw [show defaultFuel env s = (unseen env s.pluginsLoaded + 1) + 1 from rfl,
    loadPluginF_succ]
  simp only [hm, hdeps, Option.getD_some]

/-- Witness for `c10_undefined_guard_type_error` at a manifest with an absent
`dependencies` field. -/
theorem c10_undefined_guard_type_error_witness :
    dependenciesGuard none = true ∧
    lookupManifest envUndefDeps "U" = some ⟨"U", ⟨none⟩⟩ ∧
    loadPlugin envUndefDeps cfg0 "U" initState =
      ⟨some (JsError.typeError iterErrMsg),
       manifestState "U" (claimState "U" initState)⟩ :=
  ⟨c10_undefined_guard_type_error.1 none, by decide,
   c10_undefined_guard_type_error.2 envUndefDeps cfg0 "U" initState
     ⟨"U", ⟨none⟩⟩ (by decide) rfl⟩

/-- C9: the configuration is captured by value (`_.cloneDeep`) at
construction: after `new PluginLoader(config)`, a mutation the caller applies
to its own configuration object leaves the loader's `_config` snapshot — and
hence the behaviour of every subsequent `loadPlugin` call — unchanged. -/
theorem c9_config_captured_by_value (w : World) (callerRef : Nat)
    (href : callerRef < w.next) (f : FrameworkConfig → FrameworkConfig)
    (env : Env) (pluginId : String) (s : LoaderState) :
    loadPluginVia (mutateConfig (constructLoader w callerRef).1 callerRef f)
        (constructLoader w callerRef).2 env pluginId s =
      loadPluginVia (constructLoader w callerRef).1
        (constructLoader w callerRef).2 env pluginId s ∧
    configGetter (mutateConfig (constructLoader w callerRef).1 callerRef f)
        (constructLoader w callerRef).2 = cloneDeepConfig (w.heap callerRef)
      := by
  have hne : w.next ≠ callerRef := Nat.ne_of_gt href
  constructor
  · unfold loadPluginVia configGetter mutateConfig constructLoader
    simp [hne]
  · unfold configGetter mutateConfig constructLoader cloneDeepConfig
    simp [hne]

/-- Witness for `c9_config_captured_by_value` on a one-cell heap. -/
theorem c9_config_captured_by_value_witness :
    (0 : Nat) < 1 ∧
    loadPluginVia
        (mutateConfig (constructLoader ⟨fun _ => ⟨"/caller/"⟩, 1⟩ 0).1 0
          (fun _ => ⟨"/mutated/"⟩))
        (constructLoader ⟨fun _ => ⟨"/caller/"⟩, 1⟩ 0).2 envSingleA "A"
        initState =
      loadPluginVia (constructLoader ⟨fun _ => ⟨"/caller/"⟩, 1⟩ 0).1
        (constructLoader ⟨fun _ => ⟨"/caller/"⟩, 1⟩ 0).2 envSingleA "A"
        initState :=
  ⟨by decide,
   (c9_config_captured_by_value ⟨fun _ => ⟨"/caller/"⟩, 1⟩ 0 (by decide)
      (fun _ => ⟨"/mutated/"⟩) envSingleA "A" initState).1⟩

/-- C1 counterexample: `envCycleBad` contains the cycle A→B→A
(`B ∈ deps(A)` and `A ∈ deps(B)`), but A's dependency list is `[Cm, B]` and
`Cm` has no manifest, so `loadPlugin(A)` terminates with an error before B is
ever claimed: B is not in the loaded set, refuting "at the end both A and B
appear in the loaded set". -/
theorem c1_counterexample_cycle_not_claimed :
    ("B" ∈ depIdsOf (mkManifest "A" ["Cm", "B"]) ∧
     "A" ∈ depIdsOf (mkManifest "B" ["A"]) ∧
     lookupManifest envCycleBad "A" = some (mkManifest "A" ["Cm", "B"]) ∧
     lookupManifest envCycleBad "B" = some (mkManifest "B" ["A"])) ∧
    (loadPlugin envCycleBad cfg0 "A" initState).state.pluginsLoaded.count "B"
      = 0 := by
  decide

/-- C1 amended: for every dependency graph containing a cycle A→B→A,
`loadPlugin(A)` from a fresh orchestrator terminates (every fuel beyond the
canonical bound completes the recursion), A is claimed exactly once during
the call, and whenever the call succeeds B is also claimed exactly once; if
an earlier failure aborts the traversal before B's first encounter, B may
remain unclaimed. -/
theorem c1_amended_cycle_terminates_claims_once (env : Env)
    (cfg : FrameworkConfig) (A B : String) (mA mB : Manifest)
    (hA : lookupManifest env A = some mA)
    ( _hB : lookupManifest env B = some mB)
    (hAB : B ∈ depIdsOf mA) ( _hBA : A ∈ depIdsOf mB) :
    (∀ fuel, defaultFuel env initState ≤ fuel →
      (loadPluginF env cfg fuel A initState).isSome) ∧
    (loadPlugin env cfg A initState).state.pluginsLoaded.count A = 1 ∧
    ((loadPlugin env cfg A initState).error = none →
      (loadPlugin env cfg A initState).state.pluginsLoaded.count B = 1) := by
  have hrun := loadPlugin_eq env cfg A initState
  obtain ⟨-, -, hmemA, -, hnd, -⟩ :=
    loadPluginF_inv _ env cfg A initState _ hrun
  have hnodup : (loadPlugin env cfg A initState).state.pluginsLoaded.Nodup :=
    hnd (by simp [initState]) (by simp [initState])
  refine ⟨?_, ?_, ?_⟩
  · intro fuel hfuel
    apply loadPluginF_total
    · unfold defaultFuel at hfuel
      omega
    · intro hmem
      simp [initState] at hmem
  · exact List.count_eq_one_of_mem hnodup hmemA
  · intro hok
    have hBmem := loadPluginF_ok_deps_claimed env cfg _ A initState _ mA hrun
      hok hA B hAB
    exact List.count_eq_one_of_mem hnodup hBmem

/-- Witness for `c1_amended_cycle_terminates_claims_once` on the two-plugin
cycle. -/
theorem c1_amended_cycle_witness :
    (lookupManifest envCycle "A" = some (mkManifest "A" ["B"]) ∧
     lookupManifest envCycle "B" = some (mkManifest "B" ["A"]) ∧
     "B" ∈ depIdsOf (mkManifest "A" ["B"]) ∧
     "A" ∈ depIdsOf (mkManifest "B" ["A"])) ∧
    (loadPluginF envCycle cfg0 (defaultFuel envCycle initState) "A"
        initState).isSome ∧
    (loadPlugin envCycle cfg0 "A" initState).state.pluginsLoaded.count "A"
      = 1 ∧
    (loadPlugin envCycle cfg0 "A" initState).state.pluginsLoaded.count "B"
      = 1 :=
  ⟨⟨by decide, by decide, by decide, by decide⟩,
   (c1_amended_cycle_terminates_claims_once envCycle cfg0 "A" "B"
      (mkManifest "A" ["B"]) (mkManifest "B" ["A"]) (by decide) (by decide)
      (by decide) (by decide)).1 (defaultFuel envCycle initState)
      (Nat.le_refl _),
   (c1_amended_cycle_terminates_claims_once envCycle cfg0 "A" "B"
      (mkManifest "A" ["B"]) (mkManifest "B" ["A"]) (by decide) (by decide)
      (by decide) (by decide)).2.1,
   (c1_amended_cycle_terminates_claims_once envCycle cfg0 "A" "B"
      (mkManifest "A" ["B"]) (mkManifest "B" ["A"]) (by decide) (by decide)
      (by decide) (by decide)).2.2 (by decide)⟩

/-- C4 counterexample: in `{P: [D1, D2], D1: [D2], D2: []}` the second
declared dependency D2 is also a transitive dependency of D1, so D2's claim
(stage 1) happens inside D1's load — before D1's six stages complete:
`routesRegistered D1` does not precede `claim D2`. -/
theorem c4_counterexample_overlapping_deps :
    (lookupManifest envOverlap "P" = some (mkManifest "P" ["D1", "D2"]) ∧
     Event.claim "D2" ∈
       (loadPlugin envOverlap cfg0 "P" initState).state.events ∧
     Event.routesRegistered "D1" ∈
       (loadPlugin envOverlap cfg0 "P" initState).state.events) ∧
    occursBeforeB (loadPlugin envOverlap cfg0 "P" initState).state.events
      (Event.routesRegistered "D1") (Event.claim "D2") = false := by
  decide

/-- C4 amended: for a plugin P declaring dependencies `[D1, D2]` in that
order, with P, D1 and D2 pairwise distinct, D2 not reachable from D1 in the
dependency graph, and a well-formed module universe, a fresh `loadPlugin(P)`
orders the stages as claimed: whenever D2's claim occurs, every stage event
of D1 precedes it, and whenever P's schema stage begins, every stage event of
both D1 and D2 precedes it. -/
theorem c4_amended_order_invariant (env : Env) (cfg : FrameworkConfig)
    (P D1 D2 : String) (mP : Manifest) (hwf : WFEnv env)
    (hP : lookupManifest env P = some mP)
    (hdeps : mP.server.dependencies = some [⟨D1⟩, ⟨D2⟩])
    (h1P : D1 ≠ P) (h2P : D2 ≠ P) ( _h12 : D1 ≠ D2)
    (hreach : ¬ Reaches env D1 D2) :
    (Event.claim D2 ∈ (loadPlugin env cfg P initState).state.events →
      ∀ e ∈ stageEventsOf D1,
        occursBeforeB (loadPlugin env cfg P initState).state.events e
          (Event.claim D2) = true) ∧
    (Event.schemaStage P ∈ (loadPlugin env cfg P initState).state.events →
      ∀ e ∈ stageEventsOf D1 ++ stageEventsOf D2,
        occursBeforeB (loadPlugin env cfg P initState).state.events e
          (Event.schemaStage P) = true) := by
  obtain ⟨r, hrun⟩ := Option.isSome_iff_exists.mp
    (loadPlugin_isSome env cfg P initState)
  have hreq : loadPlugin env cfg P initState = r := by
    have h := loadPlugin_eq env cfg P initState
    rw [hrun] at h
    exact (Option.some.inj h).symm
  rw [hreq]
  rw [show defaultFuel env initState =
      (unseen env initState.pluginsLoaded + 1) + 1 from rfl,
    loadPluginF_succ] at hrun
  simp only [hP, hdeps, map_ipluginId_pair] at hrun
  have hs2l : (manifestState P (claimState P initState)).pluginsLoaded = [P] :=
    rfl
  have hs2e : (manifestState P (claimState P initState)).events =
      [Event.claim P, Event.manifestResolved P] := rfl
  have hD1ns2 : ¬ ((manifestState P (claimState P initState)).pluginsLoaded.contains
      D1 = true) := by
    rw [contains_true_iff, hs2l]
    intro hx
    exact h1P (List.mem_singleton.mp hx)
  have hD1ns2' : D1 ∉ (manifestState P (claimState P initState)).pluginsLoaded := by
    rw [hs2l]
    intro hx
    exact h1P (List.mem_singleton.mp hx)
  rw [loadDependenciesF_cons, if_neg hD1ns2] at hrun
  cases hD1 : loadPluginF env cfg (unseen env initState.pluginsLoaded + 1) D1
      (manifestState P (claimState P initState)) with
  | none => simp [hD1] at hrun
  | some r1 =>
      obtain ⟨e1, s3⟩ := r1
      obtain ⟨hpre1, hev1, hD1mem3, hmem1, hnd1, hevb1⟩ :=
        loadPluginF_inv _ env cfg D1 _ _ hD1
      have hclD2n3 : Event.claim D2 ∉ s3.events := by
        intro hx
        rcases hevb1 hwf hD1ns2' _ hx with h1 | ⟨-, hrch⟩
        · rw [hs2e] at h1
          rcases List.mem_cons.mp h1 with h2 | h2
          · exact h2P (by injection h2)
          · rw [List.mem_singleton] at h2
            cases h2
        · exact hreach hrch
      have hschPn3 : Event.schemaStage P ∉ s3.events := by
        intro hx
        rcases hevb1 hwf hD1ns2' _ hx with h1 | ⟨hni, -⟩
        · rw [hs2e] at h1
          rcases List.mem_cons.mp h1 with h2 | h2
          · cases h2
          · rw [List.mem_singleton] at h2
            cases h2
        · exact hni (by rw [hs2l]; exact List.mem_singleton.mpr rfl)
      cases e1 with
      | some e =>
          simp only [hD1] at hrun
          obtain rfl : (⟨some e, s3⟩ : LoadResult) = r := Option.some.inj hrun
          constructor
          · intro hcl
            exact absurd hcl hclD2n3
          · intro hsch
            exact absurd hsch hschPn3
      | none =>
          simp only [hD1] at hrun
          obtain ⟨mD1, t1, hmD1, hs3e⟩ :=
            loadPluginF_ok_events env cfg _ D1 _ _ hD1 rfl
          have hmD1id : mD1.id = D1 := hwf D1 mD1 hmD1
          rw [hmD1id] at hs3e
          have hstageD1 : ∀ e ∈ stageEventsOf D1, e ∈ s3.events := by
            intro e he
            rw [hs3e]
            simp only [stageEventsOf] at he
            fin_cases he <;> simp
          have hPmem3 : P ∈ s3.pluginsLoaded := by
            obtain ⟨t, ht⟩ := hpre1
            rw [ht, hs2l]
            exact List.mem_append_left _ (List.mem_singleton.mpr rfl)
          have hD2n3 : ¬ (s3.pluginsLoaded.contains D2 = true) := by
            rw [contains_true_iff]
            intro hx
            rcases hmem1 _ hx with h1 | hrch
            · rw [hs2l] at h1
              exact h2P (List.mem_singleton.mp h1)
            · exact hreach hrch
          have hD2ns3 : D2 ∉ s3.pluginsLoaded :=
            fun hx => hD2n3 ((contains_true_iff _ _).mpr hx)
          rw [loadDependenciesF_cons, if_neg hD2n3] at hrun
          cases hD2 : loadPluginF env cfg
              (unseen env initState.pluginsLoaded + 1) D2 s3 with
          | none => simp [hD2] at hrun
          | some r2 =>
              obtain ⟨e2, s4⟩ := r2
              obtain ⟨hpre2, hev2, hD2mem4, hmem2, hnd2, hevb2⟩ :=
                loadPluginF_inv _ env cfg D2 _ _ hD2
              obtain ⟨t2, ht2⟩ := hev2
              have hclD2in4 : Event.claim D2 ∈ s4.events :=
                loadPluginF_claim_event env cfg _ D2 _ _ hD2
              have hclD2t2 : Event.claim D2 ∈ t2 := by
                rcases List.mem_append.mp
                    (show Event.claim D2 ∈ s3.events ++ t2 by
                      rw [← ht2]; exact hclD2in4) with h1 | h1
                · exact absurd h1 hclD2n3
                · exact h1
              have hschPn4 : Event.schemaStage P ∉ s4.events := by
                intro hx
                rcases hevb2 hwf hD2ns3 _ hx with h1 | ⟨hni, -⟩
                · exact hschPn3 h1
                · exact hni hPmem3
              have hbefore1 : ∀ e ∈ stageEventsOf D1,
                  occursBeforeB s4.events e (Event.claim D2) = true := by
                intro e he
                rw [ht2]
                exact occursBeforeB_of_split _ _ _ _ (hstageD1 e he) hclD2n3
                  hclD2t2
              cases e2 with
              | some e =>
                  simp only [hD2] at hrun
                  obtain rfl : (⟨some e, s4⟩ : LoadResult) = r :=
                    Option.some.inj hrun
                  constructor
                  · intro hcl
                    exact hbefore1
                  · intro hsch
                    exact absurd hsch hschPn4
              | none =>
                  simp only [hD2] at hrun
                  rw [loadDependenciesF_nil] at hrun
                  have hfr : finishStages env cfg mP s4 = r :=
                    Option.some.inj hrun
                  obtain ⟨hfl, tf, htf, -⟩ := finishStages_spec env cfg mP s4
                  have hmPid : mP.id = P := hwf P mP hP
                  rw [hmPid] at htf
                  subst hfr
                  rw [htf]
                  obtain ⟨mD2, t2', hmD2, hs4e⟩ :=
                    loadPluginF_ok_events env cfg _ D2 _ _ hD2 rfl
                  have hmD2id : mD2.id = D2 := hwf D2 mD2 hmD2
                  rw [hmD2id] at hs4e
                  have hstageD2 : ∀ e ∈ stageEventsOf D2, e ∈ s4.events := by
                    intro e he
                    rw [hs4e]
                    simp only [stageEventsOf] at he
                    fin_cases he <;> simp
                  have hstageD1' : ∀ e ∈ stageEventsOf D1, e ∈ s4.events := by
                    intro e he
                    rw [ht2]
                    exact List.mem_append_left _ (hstageD1 e he)
                  constructor
                  · intro hcl e he
                    rw [ht2, List.append_assoc]
                    exact occursBeforeB_of_split _ _ _ _ (hstageD1 e he)
                      hclD2n3 (List.mem_append_left _ hclD2t2)
                  · intro hsch e he
                    refine occursBeforeB_of_split _ _ _ _ ?_ hschPn4
                      (List.mem_cons_self _ _)
                    rcases List.mem_append.mp he with h1 | h1
                    · exact hstageD1' e h1
                    · exact hstageD2 e h1

/-- A module universe whose every entry declares its own key as id is
well-formed. -/
theorem wfEnv_of_pairs (env : Env)
    (h : ∀ p ∈ env.manifests, p.snd.id = p.fst) : WFEnv env := by
  intro k m hm
  unfold lookupManifest at hm
  cases hf : env.manifests.find? (fun p => p.fst == k) with
  | none => rw [hf] at hm; cases hm
  | some p =>
      rw [hf] at hm
      have hpk : p.fst = k := by simpa using List.find?_some hf
      have hmem := List.mem_of_find?_eq_some hf
      have hpm : p.snd = m := by simpa using hm
      rw [← hpm, h p hmem, hpk]

/-- Witness for `c4_amended_order_invariant` on independent dependencies. -/
theorem c4_amended_order_invariant_witness :
    (lookupManifest envTwoDeps "P" = some (mkManifest "P" ["D1", "D2"]) ∧
     Event.claim "D2" ∈
       (loadPlugin envTwoDeps cfg0 "P" initState).state.events ∧
     Event.schemaStage "P" ∈
       (loadPlugin envTwoDeps cfg0 "P" initState).state.events) ∧
    occursBeforeB (loadPlugin envTwoDeps cfg0 "P" initState).state.events
      (Event.routesRegistered "D1") (Event.claim "D2") = true ∧
    occursBeforeB (loadPlugin envTwoDeps cfg0 "P" initState).state.events
      (Event.routesRegistered "D2") (Event.schemaStage "P") = true := by
  have hwf := wfEnv_of_pairs envTwoDeps (by decide)
  have hnr : ¬ Reaches envTwoDeps "D1" "D2" := by
    apply not_reaches_of_closed envTwoDeps ["D1"] "D1" "D2" (by decide)
      (by decide)
    intro x hx y hy
    rw [List.mem_singleton] at hx
    subst hx
    obtain ⟨m, hm, hy2⟩ := hy
    rw [show lookupManifest envTwoDeps "D1" = some (mkManifest "D1" []) from
      by decide] at hm
    obtain rfl : mkManifest "D1" [] = m := Option.some.inj hm
    simp [depIdsOf, mkManifest] at hy2
  have hmain := c4_amended_order_invariant envTwoDeps cfg0 "P" "D1" "D2"
    (mkManifest "P" ["D1", "D2"]) hwf (by decide) (by decide) (by decide)
    (by decide) (by decide) hnr
  exact ⟨⟨by decide, by decide, by decide⟩,
    hmain.1 (by decide) (Event.routesRegistered "D1") (by decide),
    hmain.2 (by decide) (Event.routesRegistered "D2") (by decide)⟩
